import Mathlib

/-!
Shallow embedding of the normalization / type-coercion core of
`pyisy/__init__.py` (classes `XMLHelper` and `ISYDataHelpers`).

Python values flowing through the normalization layer are nested
dictionaries, lists and scalars (str, bool, int, float, None, datetime).
Dictionaries are modelled as association lists with unique keys; Python's
in-place mutations become pure functions returning the updated value, and
exceptions (AssertionError, ValueError, KeyError, TypeError,
AttributeError) become `Except String`.
-/

set_option autoImplicit false

/-- Exact decimal model of a Python float produced by `float(s)`:
value = (-1)^neg * mant * 10^exp, with `mant` either 0 or not divisible
by 10 (normalized by the parser).  Python's `str()` of a float prints the
shortest 12-significant-digit form; for inputs of at most 12 significant
digits (every input the repository's data can round-trip) the exact
decimal is what `str()` prints, so this model agrees with CPython there. -/
structure PyFloat where
  neg : Bool
  mant : Nat
  exp : Int
  deriving DecidableEq, Repr

/-- Result of `datetime.datetime.strptime`. -/
structure PyDateTime where
  year : Nat
  month : Nat
  day : Nat
  hour : Nat
  minute : Nat
  second : Nat
  deriving DecidableEq, Repr

/-- A Python value as seen by the normalization layer. -/
inductive PyVal where
  | str : String → PyVal
  | bool : Bool → PyVal
  | int : Int → PyVal
  | float : PyFloat → PyVal
  | none : PyVal
  | datetime : PyDateTime → PyVal
  | dict : List (String × PyVal) → PyVal
  | list : List PyVal → PyVal
  deriving Repr

mutual

/-- Structural equality on modelled Python values (Python `==` restricted
to the shapes the normalization layer produces). -/
def pyEq : PyVal → PyVal → Bool
  | .str a, .str b => a = b
  | .bool a, .bool b => a = b
  | .int a, .int b => a = b
  | .float a, .float b => a = b
  | .none, .none => true
  | .datetime a, .datetime b => a = b
  | .dict a, .dict b => pyEqD a b
  | .list a, .list b => pyEqL a b
  | _, _ => false

/-- Entrywise equality of dictionaries. -/
def pyEqD : List (String × PyVal) → List (String × PyVal) → Bool
  | [], [] => true
  | (k, v) :: r, (k', v') :: r' => k = k' && pyEq v v' && pyEqD r r'
  | _, _ => false

/-- Elementwise equality of lists. -/
def pyEqL : List PyVal → List PyVal → Bool
  | [], [] => true
  | v :: r, v' :: r' => pyEq v v' && pyEqL r r'
  | _, _ => false

end

/-! ### Character and string utilities (Python `str` methods) -/

/-- Python `str.isspace` characters stripped by `int()` / `str.strip()`. -/
def pyIsSpace (c : Char) : Bool :=
  c = ' ' || c = '\t' || c = '\n' || c = '\x0d' || c = '\x0b' || c = '\x0c'

/-- ASCII lower-casing of one byte, as Python 2 `str.lower` does. -/
def pyLowerChar (c : Char) : Char :=
  if 'A' ≤ c ∧ c ≤ 'Z' then Char.ofNat (c.toNat + 32) else c

/-- Python `s.lower()`. -/
def pyLower (s : String) : String :=
  ⟨s.data.map pyLowerChar⟩

/-- Python `s.strip()` (strip whitespace at both ends). -/
def pyStrip (s : String) : String :=
  ⟨((s.data.dropWhile pyIsSpace).reverse.dropWhile pyIsSpace).reverse⟩

/-- Does `p` occur at the head of `t`? -/
def leadsList : List Char → List Char → Bool
  | [], _ => true
  | _ :: _, [] => false
  | a :: as, b :: bs => a = b && leadsList as bs

/-- Does `p` occur anywhere inside `t`? -/
def occursIn (p : List Char) : List Char → Bool
  | [] => p.isEmpty
  | c :: t => leadsList p (c :: t) || occursIn p t

/-- Python `sub in s` for strings (substring test). -/
def strContains (s sub : String) : Bool :=
  occursIn sub.data s.data

/-- Python `key.startswith` for a one-character marker: first char is `@`. -/
def atMarked (k : String) : Bool :=
  match k.data with
  | [] => false
  | c :: _ => c = '@'

/-- Python `key[1:]`. -/
def strTail (k : String) : String :=
  ⟨k.data.tail⟩

/-- Scan of Python `str.replace` (non-overlapping, left to right);
`o :: os` is the (nonempty) pattern.  The fuel argument only bounds the
recursion depth structurally: each step consumes at least one character,
so fuel equal to the text length never runs out. -/
def replaceFrom (o : Char) (os new : List Char) : Nat → List Char → List Char
  | _, [] => []
  | 0, t => t
  | fuel + 1, c :: t =>
    if leadsList (o :: os) (c :: t) then
      new ++ replaceFrom o os new fuel (t.drop os.length)
    else
      c :: replaceFrom o os new fuel t

/-- Python `s.replace(old, new)`; the source only calls it with the
nonempty pattern "  ", and an empty pattern is returned unchanged. -/
def pyReplace (s old new : String) : String :=
  match old.data with
  | [] => s
  | o :: os => ⟨replaceFrom o os new.data s.data.length s.data⟩

/-! ### Python dictionaries as association lists -/

/-- Keys of a dictionary, in order. -/
def dKeys (kvs : List (String × PyVal)) : List String :=
  kvs.map Prod.fst

/-- Python `d[k]` / `k in d` support: first value stored under `k`. -/
def dLookup (kvs : List (String × PyVal)) (k : String) : Option PyVal :=
  match kvs with
  | [] => Option.none
  | (k', v) :: rest => if k' = k then some v else dLookup rest k

/-- Python `d[k] = v`: replace in place if present, else append. -/
def dSet (kvs : List (String × PyVal)) (k : String) (v : PyVal) :
    List (String × PyVal) :=
  match kvs with
  | [] => [(k, v)]
  | (k', v') :: rest =>
    if k' = k then (k', v) :: rest else (k', v') :: dSet rest k v

/-- Python `d.pop(k)`: value removed together with the remaining dict. -/
def dPop (kvs : List (String × PyVal)) (k : String) :
    Option (PyVal × List (String × PyVal)) :=
  match kvs with
  | [] => Option.none
  | (k', v) :: rest =>
    if k' = k then some (v, rest)
    else match dPop rest k with
      | some (w, rest') => some (w, (k', v) :: rest')
      | Option.none => Option.none

/-- Python truthiness of the modelled values. -/
def pyTruthy : PyVal → Bool
  | .str s => !s.data.isEmpty
  | .bool b => b
  | .int n => n ≠ 0
  | .float f => f.mant ≠ 0
  | .none => false
  | .datetime _ => true
  | .dict kvs => !kvs.isEmpty
  | .list xs => !xs.isEmpty

/-! ### Python numeric parsing and stringification -/

/-- Is `c` an ASCII decimal digit? -/
def isDigitC (c : Char) : Bool :=
  '0' ≤ c && c ≤ '9'

/-- Numeric value of the digit list (most significant first). -/
def digitsToNat (cs : List Char) : Nat :=
  cs.foldl (fun acc c => acc * 10 + (c.toNat - '0'.toNat)) 0

/-- Nonempty all-digit run, as required after the sign by `int()`. -/
def digitRun (cs : List Char) : Option Nat :=
  if cs ≠ [] ∧ cs.all isDigitC then some (digitsToNat cs) else Option.none

/-- Whitespace stripped from both ends, as `int()` and `float()` do. -/
def stripEnds (cs : List Char) : List Char :=
  ((cs.dropWhile pyIsSpace).reverse.dropWhile pyIsSpace).reverse

/-- Python 2 `int(s)`: optional surrounding whitespace, optional single
sign, then a nonempty digit run. -/
def pyIntParse (s : String) : Option Int :=
  match stripEnds s.data with
  | '+' :: rest => (digitRun rest).map Int.ofNat
  | '-' :: rest => (digitRun rest).map (fun n => -(n : Int))
  | rest => (digitRun rest).map Int.ofNat

/-- Strip factors of 10 from the mantissa; the fuel argument only bounds
the recursion structurally (each step at least halves `m`, so fuel `m`
never runs out). -/
def normFloatAux : Nat → Bool → Nat → Int → PyFloat
  | _, neg, 0, _ => ⟨neg, 0, 0⟩
  | 0, neg, m, e => ⟨neg, m, e⟩
  | fuel + 1, neg, m, e =>
    if m % 10 = 0 then normFloatAux fuel neg (m / 10) (e + 1) else ⟨neg, m, e⟩

/-- Normalize an exact decimal so the mantissa is 0 or not divisible
by 10. -/
def normFloat (neg : Bool) (m : Nat) (e : Int) : PyFloat :=
  normFloatAux m neg m e

/-- Exponent part of the float grammar: `[+-]? digits`. -/
def parseExpPart (cs : List Char) : Option Int :=
  match cs with
  | '+' :: rest => (digitRun rest).map Int.ofNat
  | '-' :: rest => (digitRun rest).map (fun n => -(n : Int))
  | rest => (digitRun rest).map Int.ofNat

/-- Mantissa and scale of the CPython `float()` grammar for finite
decimal literals: `digits [. digits] [ (e|E) exp ]` with at least one
digit around the point.  (`inf`/`nan` forms contain no `.` and are never
fed to the float branch of `_AttemptStrToNum`, so they are omitted.) -/
def parseFloatBody (cs : List Char) : Option (Nat × Int) :=
  let ip := cs.takeWhile isDigitC
  let rest := cs.dropWhile isDigitC
  match rest with
  | '.' :: rest2 =>
    let fp := rest2.takeWhile isDigitC
    let rest3 := rest2.dropWhile isDigitC
    if ip = [] ∧ fp = [] then Option.none
    else
      let m := digitsToNat (ip ++ fp)
      let e0 : Int := -(fp.length : Int)
      match rest3 with
      | [] => some (m, e0)
      | 'e' :: rest4 => (parseExpPart rest4).map (fun ex => (m, e0 + ex))
      | 'E' :: rest4 => (parseExpPart rest4).map (fun ex => (m, e0 + ex))
      | _ => Option.none
  | [] => if ip = [] then Option.none else some (digitsToNat ip, 0)
  | 'e' :: rest4 =>
    if ip = [] then Option.none
    else (parseExpPart rest4).map (fun ex => (digitsToNat ip, ex))
  | 'E' :: rest4 =>
    if ip = [] then Option.none
    else (parseExpPart rest4).map (fun ex => (digitsToNat ip, ex))
  | _ => Option.none

/-- Python 2 `float(s)` on finite decimal literals, as an exact decimal. -/
def pyFloatParse (s : String) : Option PyFloat :=
  match stripEnds s.data with
  | '+' :: rest => (parseFloatBody rest).map (fun (m, e) => normFloat false m e)
  | '-' :: rest => (parseFloatBody rest).map (fun (m, e) => normFloat true m e)
  | rest => (parseFloatBody rest).map (fun (m, e) => normFloat false m e)

/-- Python 2 `str(f)` for a float (the `%.12g` format, with `.0` appended
when the result carries no point or exponent).  Exact for values of at
most 12 significant digits, which is every value the coercion layer can
round-trip. -/
def floatStr (f : PyFloat) : String :=
  if f.mant = 0 then (if f.neg then "-0.0" else "0.0")
  else
    let d := (toString f.mant).data
    let n := d.length
    let X : Int := (n - 1 : Int) + f.exp
    let core : List Char :=
      if -4 ≤ X ∧ X < 12 then
        if 0 ≤ f.exp then d ++ List.replicate f.exp.toNat '0' ++ ['.', '0']
        else
          let k := (-f.exp).toNat
          if n > k then d.take (n - k) ++ '.' :: d.drop (n - k)
          else '0' :: '.' :: (List.replicate (k - n) '0' ++ d)
      else
        let mantPart : List Char :=
          match d with
          | [] => []
          | c :: rest => if rest = [] then [c] else c :: '.' :: rest
        let eAbs := (if X < 0 then -X else X).toNat
        let eDigits := (toString eAbs).data
        let eDigits := if eDigits.length < 2 then '0' :: eDigits else eDigits
        mantPart ++ 'e' :: (if X < 0 then '-' else '+') :: eDigits
    ⟨(if f.neg then ['-'] else []) ++ core⟩

/-- Zero-pad a number to two digits (for `str(datetime)`). -/
def pad2 (n : Nat) : String :=
  if n < 10 then "0" ++ toString n else toString n

/-- Python `str(v)` for the values the coercion asserts can produce
(strings, booleans, ints, floats, None, datetimes); the assertions in
`_AttemptStrToNum` / `_AttemptStrToBool` never apply it to containers,
whose rendering is therefore a placeholder. -/
def pyStr : PyVal → String
  | .str s => s
  | .bool b => if b then "True" else "False"
  | .int n => toString n
  | .float f => floatStr f
  | .none => "None"
  | .datetime dt =>
    toString dt.year ++ "-" ++ pad2 dt.month ++ "-" ++ pad2 dt.day ++ " " ++
      pad2 dt.hour ++ ":" ++ pad2 dt.minute ++ ":" ++ pad2 dt.second
  | .dict _ => "{}"
  | .list _ => "[]"

/-! ### `XMLHelper` scalar coercion (`_AttemptStrToBool`, `_AttemptStrToNum`) -/

/-- `XMLHelper._AttemptStrToBool`: case-insensitive match of the literal
words true/false; non-strings are returned unmodified; the function
asserts `before.lower() == str(after).lower()` before returning. -/
def AttemptStrToBool (v : PyVal) : Except String PyVal :=
  match v with
  | .str s =>
    let after : PyVal :=
      if pyLower s = "true" then .bool true
      else if pyLower s = "false" then .bool false
      else .str s
    if pyLower s = pyLower (pyStr after) then .ok after
    else .error "AssertionError"
  | v => .ok v

/-- `XMLHelper._AttemptStrToNum`: float parse when the string contains a
`.`, int parse otherwise, string kept on parse failure; the function
asserts `before == str(after)` before returning. -/
def AttemptStrToNum (v : PyVal) : Except String PyVal :=
  match v with
  | .str s =>
    let after : PyVal :=
      if strContains s "." then
        match pyFloatParse s with
        | some f => .float f
        | Option.none => .str s
      else
        match pyIntParse s with
        | some n => .int n
        | Option.none => .str s
    if s = pyStr after then .ok after
    else .error "AssertionError"
  | v => .ok v

/-- The bool-then-num sequence `StringToNumber` applies to each string
leaf (`_AttemptStrToBool` followed by `_AttemptStrToNum`). -/
def coerceString (s : String) : Except String PyVal := do
  AttemptStrToNum (← AttemptStrToBool (.str s))

mutual

/-- `XMLHelper.StringToNumber`: recursively coerce string leaves, with
`skipKeys` protecting string values stored directly under those keys in
any dictionary (`skipKeys=None` in the source is the empty list here). -/
def StringToNumber (skipKeys : List String) : PyVal → Except String PyVal
  | .str s => coerceString s
  | .dict kvs => do .ok (.dict (← stnEntries skipKeys kvs))
  | .list xs => do .ok (.list (← stnItems skipKeys xs))
  | v => .ok v

/-- Dictionary branch of `StringToNumber`: string values are coerced
unless their key is in `skipKeys`; other values are recursed into. -/
def stnEntries (skipKeys : List String) :
    List (String × PyVal) → Except String (List (String × PyVal))
  | [] => .ok []
  | (k, .str s) :: rest =>
    if skipKeys.contains k then do
      .ok ((k, .str s) :: (← stnEntries skipKeys rest))
    else do
      let v ← coerceString s
      .ok ((k, v) :: (← stnEntries skipKeys rest))
  | (k, v) :: rest => do
    let v' ← StringToNumber skipKeys v
    .ok ((k, v') :: (← stnEntries skipKeys rest))

/-- Sequence branch of `StringToNumber`: string items are coerced (no
key, so `skipKeys` cannot protect them); others are recursed into. -/
def stnItems (skipKeys : List String) : List PyVal → Except String (List PyVal)
  | [] => .ok []
  | .str s :: rest => do
    let v ← coerceString s
    .ok (v :: (← stnItems skipKeys rest))
  | v :: rest => do
    let v' ← StringToNumber skipKeys v
    .ok (v' :: (← stnItems skipKeys rest))

end

/-- The action of `StringToNumber` on one dictionary entry, as a
standalone function (used to state entrywise facts about `stnEntries`). -/
def stnEntry (skipKeys : List String) (k : String) (v : PyVal) :
    Except String PyVal :=
  match v with
  | .str s => if skipKeys.contains k then .ok (.str s) else coerceString s
  | v => StringToNumber skipKeys v

/-- The action of `StringToNumber` on one sequence item, as a standalone
function. -/
def stnItem (skipKeys : List String) (v : PyVal) : Except String PyVal :=
  match v with
  | .str s => coerceString s
  | v => StringToNumber skipKeys v

/-! ### `XMLHelper` structural passes -/

/-- The rename loop of `AttrToMember`: walk the snapshot of the keys and,
for each key starting with `@`, pop it and store its value under the key
with the marker stripped (overwriting any existing entry). -/
def attrRenameLoop (snapshot : List String) (kvs : List (String × PyVal)) :
    List (String × PyVal) :=
  match snapshot with
  | [] => kvs
  | k :: rest =>
    if atMarked k then
      match dPop kvs k with
      | some (v, kvs') => attrRenameLoop rest (dSet kvs' (strTail k) v)
      | Option.none => attrRenameLoop rest kvs
    else attrRenameLoop rest kvs

mutual

/-- `XMLHelper.AttrToMember`: recursively rename `@key` to `key`.
Strings are the no-op base case; non-container scalars fall through all
`isinstance` checks unchanged.  The source renames at a level first and
then recurses into the values; since renaming touches only keys and
recursion touches only values, recursing first and renaming after (as
here, which keeps the recursion structural) yields the same dictionary. -/
def AttrToMember : PyVal → PyVal
  | .str s => .str s
  | .dict kvs => .dict (attrRenameLoop (dKeys kvs) (attrEntries kvs))
  | .list xs => .list (attrItems xs)
  | v => v

/-- Recursion of `AttrToMember` into dictionary values. -/
def attrEntries : List (String × PyVal) → List (String × PyVal)
  | [] => []
  | (k, v) :: rest => (k, AttrToMember v) :: attrEntries rest

/-- Recursion of `AttrToMember` into sequence items. -/
def attrItems : List PyVal → List PyVal
  | [] => []
  | v :: rest => AttrToMember v :: attrItems rest

end

/-- `XMLHelper.TextToMember`: rename a `#text` key of a single mapping to
`memberName`; no-op when absent.  On non-mappings Python's `in` is a
substring/element test and a successful test leads to `.pop`, which
raises (str has no `pop`, list `pop` wants an int index). -/
def TextToMember (xmldict : PyVal) (memberName : String) :
    Except String PyVal :=
  match xmldict with
  | .dict kvs =>
    match dPop kvs "#text" with
    | Option.none => .ok (.dict kvs)
    | some (v, kvs') => .ok (.dict (dSet kvs' memberName v))
  | .str s =>
    if strContains s "#text" then .error "AttributeError" else .ok (.str s)
  | .list xs =>
    if xs.any (fun x => pyEq x (.str "#text")) then .error "TypeError"
    else .ok (.list xs)
  | _ => .error "TypeError"

/-- `XMLHelper.EnsureMember`: `if key not in xmldict or not xmldict[key]:
xmldict[key] = valtype()`.  On non-mappings either the membership test or
the indexing/assignment raises a TypeError. -/
def EnsureMember (xmldict : PyVal) (key : String) (empty : PyVal) :
    Except String PyVal :=
  match xmldict with
  | .dict kvs =>
    match dLookup kvs key with
    | Option.none => .ok (.dict (dSet kvs key empty))
    | some v =>
      if pyTruthy v then .ok (.dict kvs)
      else .ok (.dict (dSet kvs key empty))
  | _ => .error "TypeError"

/-! ### `datetime.strptime` for the fixed format `%Y/%m/%d %I:%M:%S %p` -/

/-- Digit value of an ASCII digit. -/
def digitVal (c : Char) : Nat :=
  c.toNat - '0'.toNat

/-- `%Y` matches exactly four digits. -/
def parseYear4 : List Char → Option (Nat × List Char)
  | a :: b :: c :: d :: rest =>
    if isDigitC a ∧ isDigitC b ∧ isDigitC c ∧ isDigitC d then
      some (digitVal a * 1000 + digitVal b * 100 + digitVal c * 10 + digitVal d,
        rest)
    else Option.none
  | _ => Option.none

/-- `%m` and `%I` both match `1[0-2]|0[1-9]|[1-9]`. -/
def parseTwelve : List Char → Option (Nat × List Char)
  | c1 :: c2 :: rest =>
    if c1 = '1' ∧ '0' ≤ c2 ∧ c2 ≤ '2' then some (10 + digitVal c2, rest)
    else if c1 = '0' ∧ '1' ≤ c2 ∧ c2 ≤ '9' then some (digitVal c2, rest)
    else if '1' ≤ c1 ∧ c1 ≤ '9' then some (digitVal c1, c2 :: rest)
    else Option.none
  | [c1] => if '1' ≤ c1 ∧ c1 ≤ '9' then some (digitVal c1, []) else Option.none
  | [] => Option.none

/-- `%d` matches `3[01]|[12]\d|0[1-9]|[1-9]`. -/
def parseDay31 : List Char → Option (Nat × List Char)
  | c1 :: c2 :: rest =>
    if c1 = '3' ∧ (c2 = '0' ∨ c2 = '1') then some (30 + digitVal c2, rest)
    else if (c1 = '1' ∨ c1 = '2') ∧ isDigitC c2 then
      some (10 * digitVal c1 + digitVal c2, rest)
    else if c1 = '0' ∧ '1' ≤ c2 ∧ c2 ≤ '9' then some (digitVal c2, rest)
    else if '1' ≤ c1 ∧ c1 ≤ '9' then some (digitVal c1, c2 :: rest)
    else Option.none
  | [c1] => if '1' ≤ c1 ∧ c1 ≤ '9' then some (digitVal c1, []) else Option.none
  | [] => Option.none

/-- `%M` matches `[0-5]\d|\d`. -/
def parseSixty : List Char → Option (Nat × List Char)
  | c1 :: c2 :: rest =>
    if '0' ≤ c1 ∧ c1 ≤ '5' ∧ isDigitC c2 then
      some (10 * digitVal c1 + digitVal c2, rest)
    else if isDigitC c1 then some (digitVal c1, c2 :: rest)
    else Option.none
  | [c1] => if isDigitC c1 then some (digitVal c1, []) else Option.none
  | [] => Option.none

/-- `%S` matches `6[01]|[0-5]\d|\d` (leap seconds pass the regex and are
rejected later by the `datetime` constructor). -/
def parseSixtyTwo : List Char → Option (Nat × List Char)
  | c1 :: c2 :: rest =>
    if c1 = '6' ∧ (c2 = '0' ∨ c2 = '1') then some (60 + digitVal c2, rest)
    else if '0' ≤ c1 ∧ c1 ≤ '5' ∧ isDigitC c2 then
      some (10 * digitVal c1 + digitVal c2, rest)
    else if isDigitC c1 then some (digitVal c1, c2 :: rest)
    else Option.none
  | [c1] => if isDigitC c1 then some (digitVal c1, []) else Option.none
  | [] => Option.none

/-- A literal character of the format. -/
def expectC (c : Char) : List Char → Option (List Char)
  | c' :: rest => if c' = c then some rest else Option.none
  | [] => Option.none

/-- Literal whitespace in an `strptime` format matches `\s+`. -/
def wsPlus : List Char → Option (List Char)
  | c :: rest => if pyIsSpace c then some (rest.dropWhile pyIsSpace) else Option.none
  | [] => Option.none

/-- `%p` matches `AM|PM` case-insensitively; `true` means PM. -/
def parseAmPm : List Char → Option (Bool × List Char)
  | a :: m :: rest =>
    if pyLowerChar m = 'm' then
      if pyLowerChar a = 'a' then some (false, rest)
      else if pyLowerChar a = 'p' then some (true, rest)
      else Option.none
    else Option.none
  | _ => Option.none

/-- Is `y` a Gregorian leap year? -/
def isLeap (y : Nat) : Bool :=
  y % 4 = 0 && (y % 100 ≠ 0 || y % 400 = 0)

/-- Days in a month, used by the `datetime` constructor's validation. -/
def daysInMonth (y m : Nat) : Nat :=
  if m = 2 then (if isLeap y then 29 else 28)
  else if m = 4 ∨ m = 6 ∨ m = 9 ∨ m = 11 then 30
  else 31

/-- `datetime.datetime.strptime(s, "%Y/%m/%d %I:%M:%S %p")`: the regex
match (whole string), the AM/PM hour adjustment, and the `datetime`
constructor's range validation.  `Option.none` is a `ValueError`. -/
def pyStrptime (s : String) : Option PyDateTime := do
  let cs := s.data
  let (y, cs) ← parseYear4 cs
  let cs ← expectC '/' cs
  let (mo, cs) ← parseTwelve cs
  let cs ← expectC '/' cs
  let (d, cs) ← parseDay31 cs
  let cs ← wsPlus cs
  let (h, cs) ← parseTwelve cs
  let cs ← expectC ':' cs
  let (mi, cs) ← parseSixty cs
  let cs ← expectC ':' cs
  let (sec, cs) ← parseSixtyTwo cs
  let cs ← wsPlus cs
  let (pm, cs) ← parseAmPm cs
  if cs.isEmpty then
    let h24 := if pm then (if h = 12 then 12 else h + 12)
               else (if h = 12 then 0 else h)
    if 1 ≤ y ∧ d ≤ daysInMonth y mo ∧ sec ≤ 59 then
      some ⟨y, mo, d, h24, mi, sec⟩
    else Option.none
  else Option.none

/-! ### `ISYDataHelpers` -/

/-- `ISYDataHelpers.StringToDate`: falsy values (absent/empty) become
`None`; otherwise the ISY double-space quirk is patched with
`value.replace("  ", " 0")` and the fixed format is parsed, a failure
propagating as a `ValueError`.  A truthy non-string lacks a usable
`replace` method. -/
def StringToDate (value : PyVal) : Except String PyVal :=
  if pyTruthy value = false then .ok .none
  else match value with
    | .str s =>
      match pyStrptime (pyReplace s "  " " 0") with
      | some dt => .ok (.datetime dt)
      | Option.none => .error "ValueError"
    | .datetime _ => .error "TypeError"
    | _ => .error "AttributeError"

/-- Loop body of `ISYDataHelpers.TransformNode` for one property record:
split `value`/`formatted` into `rawvalue`/`value` (trimmed, empty string
to `None`) and derive `name` from `id`, with the `ST` override. -/
def transformProp (prop : PyVal) : Except String PyVal :=
  match prop with
  | .dict kvs =>
    match dPop kvs "value" with
    | Option.none => .error "KeyError"
    | some (rv, kvs1) =>
      let kvs2 := dSet kvs1 "rawvalue" rv
      match dPop kvs2 "formatted" with
      | Option.none => .error "KeyError"
      | some (.str fs, kvs3) =>
        let kvs4 := dSet kvs3 "value" (.str (pyStrip fs))
        match dLookup kvs4 "id" with
        | some (.str ids) =>
          let kvs5 := dSet kvs4 "name" (.str (pyStrip ids))
          let kvs6 := if pyStrip fs = "" then dSet kvs5 "value" PyVal.none
                      else kvs5
          let kvs7 := if ids = "ST" then dSet kvs6 "name" (.str "State")
                      else kvs6
          .ok (.dict kvs7)
        | some _ => .error "AttributeError"
        | Option.none => .error "KeyError"
      | some (_, _) => .error "AttributeError"
  | .str _ => .error "AttributeError"
  | _ => .error "TypeError"

/-- The `for prop in node["properties"]` loop of `TransformNode`.
Iterating a string yields its characters, on which `.pop` raises. -/
def transformProps : PyVal → Except String PyVal
  | .list xs => do .ok (.list (← xs.mapM transformProp))
  | .str s => if s.data.isEmpty then .ok (.str s) else .error "AttributeError"
  | _ => .error "TypeError"

/-- `ISYDataHelpers.TransformNode`: unwrap attributes, guarantee a
`property` entry, move it to `properties` (wrapping a collapsed single
mapping into a one-element list), rewrite each property record, and
coerce scalars with `address` protected. -/
def TransformNode (node : PyVal) : Except String PyVal := do
  let node1 := AttrToMember node
  let node2 ← EnsureMember node1 "property" (.list [])
  match node2 with
  | .dict kvs =>
    match dPop kvs "property" with
    | some (pv, kvs1) =>
      let props := match pv with
        | .dict pkvs => PyVal.list [.dict pkvs]
        | v => v
      let props2 ← transformProps props
      let kvs2 := dSet kvs1 "properties" props2
      StringToNumber ["address"] (.dict kvs2)
    | Option.none => .error "KeyError"
  | _ => .error "TypeError"

/-- The `for link in group["members"]` loop of `TransformGroup`: rename
each link's `#text` to `address`.  When `members` is a bare mapping the
iteration walks its keys, and when it is a bare string it walks its
characters (none of which can contain `#text`); in neither case does it
produce link records. -/
def groupLinks : PyVal → Except String PyVal
  | .list xs => do .ok (.list (← xs.mapM (fun l => TextToMember l "address")))
  | .dict mkvs =>
    if (dKeys mkvs).any (fun k => strContains k "#text") then
      .error "AttributeError"
    else .ok (.dict mkvs)
  | .str s => .ok (.str s)
  | _ => .error "TypeError"

/-- `ISYDataHelpers.TransformGroup`: unwrap attributes, guarantee a
`members` mapping and a `link` list under it, flatten `members` to the
link collection, rename link text payloads, and coerce scalars with
`address` protected. -/
def TransformGroup (group : PyVal) : Except String PyVal := do
  let group1 := AttrToMember group
  let group2 ← EnsureMember group1 "members" (.dict [])
  match group2 with
  | .dict kvs =>
    match dLookup kvs "members" with
    | some members => do
      let members2 ← EnsureMember members "link" (.list [])
      match members2 with
      | .dict mkvs =>
        match dLookup mkvs "link" with
        | some links => do
          let links2 ← groupLinks links
          let kvs2 := dSet kvs "members" links2
          StringToNumber ["address"] (.dict kvs2)
        | Option.none => .error "KeyError"
      | _ => .error "TypeError"
    | Option.none => .error "KeyError"
  | _ => .error "TypeError"

/-- One timestamp field of `TransformProgram`: converted only when the
key is present. -/
def progDateField (kvs : List (String × PyVal)) (key : String) :
    Except String (List (String × PyVal)) :=
  match dLookup kvs key with
  | Option.none => .ok kvs
  | some v => do .ok (dSet kvs key (← StringToDate v))

/-- `ISYDataHelpers.TransformProgram`: coerce scalars with `id` and
`parentId` protected, then parse the three timestamp fields that are
present.  On a non-mapping the membership test or item assignment
raises. -/
def TransformProgram (prog : PyVal) : Except String PyVal := do
  let prog1 ← StringToNumber ["id", "parentId"] prog
  match prog1 with
  | .dict kvs => do
    let kvs1 ← progDateField kvs "lastFinishTime"
    let kvs2 ← progDateField kvs1 "lastRunTime"
    let kvs3 ← progDateField kvs2 "nextScheduledRunTime"
    .ok (.dict kvs3)
  | .str s =>
    if strContains s "lastFinishTime" ∨ strContains s "lastRunTime" ∨
        strContains s "nextScheduledRunTime" then .error "TypeError"
    else .ok (.str s)
  | _ => .error "TypeError"

/-! ### Derived notions used by the statements -/

/-- Lookup inside a dictionary-valued `PyVal`. -/
def pyLookup (v : PyVal) (k : String) : Option PyVal :=
  match v with
  | .dict kvs => dLookup kvs k
  | _ => Option.none

/-- Does a dictionary-valued `PyVal` carry the key? -/
def pyHasKey (v : PyVal) (k : String) : Bool :=
  (pyLookup v k).isSome

/-- The numeric candidate `_AttemptStrToNum` tries for a string: float
when a `.` is present, int otherwise. -/
def numCandidate (s : String) : Option PyVal :=
  if strContains s "." then (pyFloatParse s).map PyVal.float
  else (pyIntParse s).map PyVal.int

/-- Is the value a Python list? -/
def pyIsList : PyVal → Bool
  | .list _ => true
  | _ => false

/-- The attribute-marked spelling of a key. -/
def atStr (a : String) : String :=
  ⟨'@' :: a.data⟩

/-- Are the keys of the list pairwise distinct? -/
def keysNodupB : List String → Bool
  | [] => true
  | k :: rest => !rest.contains k && keysNodupB rest

mutual

/-- Every mapping at every depth has pairwise distinct keys. -/
def keysUnique : PyVal → Bool
  | .dict kvs => keysNodupB (dKeys kvs) && entriesUnique kvs
  | .list xs => itemsUnique xs
  | _ => true

/-- `keysUnique` for all values of a dictionary. -/
def entriesUnique : List (String × PyVal) → Bool
  | [] => true
  | (_, v) :: r => keysUnique v && entriesUnique r

/-- `keysUnique` for all items of a sequence. -/
def itemsUnique : List PyVal → Bool
  | [] => true
  | v :: r => keysUnique v && itemsUnique r

end

mutual

/-- Do the two trees agree on every string stored under a protected key:
same shape of mappings/sequences, and wherever a string sits directly
under a key of `skipKeys`, the two values are identical. -/
def sameSkipped (skipKeys : List String) : PyVal → PyVal → Bool
  | .dict kvs, .dict kvs' => sameSkippedD skipKeys kvs kvs'
  | .list xs, .list xs' => sameSkippedL skipKeys xs xs'
  | _, _ => true

/-- `sameSkipped` on dictionary entries, keys matching pointwise: a
string under a protected key must be unchanged; any other value is
compared recursively. -/
def sameSkippedD (skipKeys : List String) :
    List (String × PyVal) → List (String × PyVal) → Bool
  | [], [] => true
  | (k, .str s) :: r, (k', v') :: r' =>
    k = k' &&
    (if skipKeys.contains k then pyEq (.str s) v' else true) &&
    sameSkippedD skipKeys r r'
  | (k, v) :: r, (k', v') :: r' =>
    k = k' && sameSkipped skipKeys v v' && sameSkippedD skipKeys r r'
  | _, _ => false

/-- `sameSkipped` on sequence items pointwise. -/
def sameSkippedL (skipKeys : List String) : List PyVal → List PyVal → Bool
  | [], [] => true
  | v :: r, v' :: r' => sameSkipped skipKeys v v' && sameSkippedL skipKeys r r'
  | _, _ => false

end

/-- The per-entry condition of `sameSkippedD`, as a standalone function. -/
def entrySkipOK (skipKeys : List String) (k : String) (v w : PyVal) : Bool :=
  match v with
  | .str _ => if skipKeys.contains k then pyEq v w else true
  | _ => sameSkipped skipKeys v w

/-! ### Association-list lemmas -/

theorem dKeys_nil : dKeys [] = [] := rfl

theorem dKeys_cons (k0 : String) (v0 : PyVal) (tl : List (String × PyVal)) :
    dKeys ((k0, v0) :: tl) = k0 :: dKeys tl := rfl

theorem dLookup_dSet_self (kvs : List (String × PyVal)) (k : String)
    (v : PyVal) : dLookup (dSet kvs k v) k = some v := by
  induction kvs with
  | nil => simp [dSet, dLookup]
  | cons hd tl ih =>
    obtain ⟨k', v'⟩ := hd
    by_cases h : k' = k
    · simp [dSet, dLookup, h]
    · simp [dSet, dLookup, h, ih]

theorem dLookup_dSet_other (kvs : List (String × PyVal)) (k k' : String)
    (v : PyVal) (h : k' ≠ k) : dLookup (dSet kvs k v) k' = dLookup kvs k' := by
  induction kvs with
  | nil => simp [dSet, dLookup, Ne.symm h]
  | cons hd tl ih =>
    obtain ⟨k0, v0⟩ := hd
    by_cases h0 : k0 = k
    · subst h0
      simp [dSet, dLookup, Ne.symm h]
    · simp only [dSet, dLookup, if_neg h0]
      by_cases h1 : k0 = k'
      · simp [h1]
      · simp [h1, ih]

theorem dPop_of_dLookup (kvs : List (String × PyVal)) (k : String)
    (v : PyVal) (h : dLookup kvs k = some v) :
    ∃ rest, dPop kvs k = some (v, rest) := by
  induction kvs with
  | nil => simp [dLookup] at h
  | cons hd tl ih =>
    obtain ⟨k0, v0⟩ := hd
    by_cases h0 : k0 = k
    · simp only [dLookup, if_pos h0] at h
      cases h
      exact ⟨tl, by simp [dPop, h0]⟩
    · simp only [dLookup, if_neg h0] at h
      obtain ⟨rest, hrest⟩ := ih h
      exact ⟨(k0, v0) :: rest, by simp [dPop, h0, hrest]⟩

theorem dLookup_dPop_other (kvs rest : List (String × PyVal))
    (k k' : String) (w : PyVal) (hpop : dPop kvs k = some (w, rest))
    (h : k' ≠ k) : dLookup rest k' = dLookup kvs k' := by
  induction kvs generalizing rest with
  | nil => simp [dPop] at hpop
  | cons hd tl ih =>
    obtain ⟨k0, v0⟩ := hd
    by_cases h0 : k0 = k
    · simp only [dPop, if_pos h0] at hpop
      cases hpop
      subst h0
      simp [dLookup, Ne.symm h]
    · simp only [dPop, if_neg h0] at hpop
      cases hrec : dPop tl k with
      | none => rw [hrec] at hpop; cases hpop
      | some p =>
        obtain ⟨w0, rest0⟩ := p
        rw [hrec] at hpop
        cases hpop
        by_cases h1 : k0 = k'
        · simp [dLookup, h1]
        · simp [dLookup, h1, ih rest0 hrec]

theorem dLookup_none_not_mem (kvs : List (String × PyVal)) (k : String)
    (h : dLookup kvs k = Option.none) : ¬ k ∈ dKeys kvs := by
  induction kvs with
  | nil => simp [dKeys_nil]
  | cons hd tl ih =>
    obtain ⟨k0, v0⟩ := hd
    by_cases h0 : k0 = k
    · simp [dLookup, h0] at h
    · simp only [dLookup, if_neg h0] at h
      simp [dKeys_cons, List.mem_cons, ih h, Ne.symm h0]

theorem dLookup_some_mem (kvs : List (String × PyVal)) (k : String)
    (v : PyVal) (h : dLookup kvs k = some v) : k ∈ dKeys kvs := by
  induction kvs with
  | nil => simp [dLookup] at h
  | cons hd tl ih =>
    obtain ⟨k0, v0⟩ := hd
    by_cases h0 : k0 = k
    · simp [dKeys_cons, h0]
    · simp only [dLookup, if_neg h0] at h
      simp [dKeys_cons, List.mem_cons, ih h]

/-! ### Characterization of the scalar coercion -/

theorem pyLower_True : pyLower "True" = "true" := rfl

theorem pyLower_False : pyLower "False" = "false" := rfl

theorem attemptBool_true (s : String) (h : pyLower s = "true") :
    AttemptStrToBool (.str s) = .ok (.bool true) := by
  unfold AttemptStrToBool
  simp only [h]
  rfl

theorem attemptBool_false (s : String) (h : pyLower s = "false") :
    AttemptStrToBool (.str s) = .ok (.bool false) := by
  unfold AttemptStrToBool
  simp only [h]
  rfl

theorem attemptBool_other (s : String) (h1 : pyLower s ≠ "true")
    (h2 : pyLower s ≠ "false") : AttemptStrToBool (.str s) = .ok (.str s) := by
  unfold AttemptStrToBool
  simp only [h1, h2, reduceIte, pyStr, if_pos rfl]

theorem attemptNum_str (s : String) :
    AttemptStrToNum (.str s) =
      (if strContains s "." then
        match pyFloatParse s with
        | some f =>
          if s = floatStr f then .ok (.float f) else .error "AssertionError"
        | Option.none => .ok (.str s)
      else
        match pyIntParse s with
        | some n =>
          if s = toString n then .ok (.int n) else .error "AssertionError"
        | Option.none => .ok (.str s)) := by
  unfold AttemptStrToNum
  by_cases h3 : strContains s "."
  · simp only [h3, reduceIte]
    cases hf : pyFloatParse s with
    | none => simp [pyStr]
    | some f => simp [pyStr]
  · simp only [h3, Bool.false_eq_true, reduceIte]
    cases hn : pyIntParse s with
    | none => simp [pyStr]
    | some n => simp [pyStr]

/-- Full characterization of the bool-then-num coercion applied to every
string leaf: boolean words first (case-insensitive), then float-only when
a `.` is present, int-only otherwise, with the round-trip assertion. -/
theorem coerceString_spec (s : String) :
    coerceString s =
      (if pyLower s = "true" then .ok (.bool true)
       else if pyLower s = "false" then .ok (.bool false)
       else if strContains s "." then
         match pyFloatParse s with
         | some f =>
           if s = floatStr f then .ok (.float f) else .error "AssertionError"
         | Option.none => .ok (.str s)
       else
         match pyIntParse s with
         | some n =>
           if s = toString n then .ok (.int n) else .error "AssertionError"
         | Option.none => .ok (.str s)) := by
  by_cases h1 : pyLower s = "true"
  · rw [if_pos h1]
    show (AttemptStrToBool (.str s)).bind AttemptStrToNum = _
    rw [attemptBool_true s h1]
    rfl
  · rw [if_neg h1]
    by_cases h2 : pyLower s = "false"
    · rw [if_pos h2]
      show (AttemptStrToBool (.str s)).bind AttemptStrToNum = _
      rw [attemptBool_false s h2]
      rfl
    · rw [if_neg h2]
      show (AttemptStrToBool (.str s)).bind AttemptStrToNum = _
      rw [attemptBool_other s h1 h2]
      show AttemptStrToNum (.str s) = _
      exact attemptNum_str s

/-! ### Claims C1 and C2 -/

/-- C1: every string the scalar coercion accepts round-trips: the result
re-stringifies to the original (exactly for numbers and unchanged
strings, case-insensitively for booleans); and whenever the applicable
numeric candidate parse succeeds but re-stringification does not
reproduce the string, `_AttemptStrToNum` raises an assertion failure
instead of returning. -/
theorem claim_C1 :
    (∀ s v, coerceString s = .ok v → pyLower (pyStr v) = pyLower s) ∧
    (∀ s v, coerceString s = .ok v → (∀ b, v ≠ PyVal.bool b) →
      pyStr v = s) ∧
    (∀ s r, numCandidate s = some r → pyStr r ≠ s →
      AttemptStrToNum (.str s) = .error "AssertionError") := by
  refine ⟨?_, ?_, ?_⟩
  · intro s v h
    rw [coerceString_spec] at h
    split_ifs at h with h1 h2 h3
    · simp only [Except.ok.injEq] at h
      subst h
      simp [pyStr, pyLower_True, h1]
    · simp only [Except.ok.injEq] at h
      subst h
      simp [pyStr, pyLower_False, h2]
    · cases hf : pyFloatParse s with
      | none =>
        simp only [hf, Except.ok.injEq] at h
        subst h
        rfl
      | some f =>
        simp only [hf] at h
        by_cases h4 : s = floatStr f
        · rw [if_pos h4] at h
          simp only [Except.ok.injEq] at h
          subst h
          subst h4
          rfl
        · rw [if_neg h4] at h
          cases h
    · cases hn : pyIntParse s with
      | none =>
        simp only [hn, Except.ok.injEq] at h
        subst h
        rfl
      | some n =>
        simp only [hn] at h
        by_cases h4 : s = toString n
        · rw [if_pos h4] at h
          simp only [Except.ok.injEq] at h
          subst h
          subst h4
          rfl
        · rw [if_neg h4] at h
          cases h
  · intro s v h hb
    rw [coerceString_spec] at h
    split_ifs at h with h1 h2 h3
    · simp only [Except.ok.injEq] at h
      exact absurd h.symm (hb true)
    · simp only [Except.ok.injEq] at h
      exact absurd h.symm (hb false)
    · cases hf : pyFloatParse s with
      | none =>
        simp only [hf, Except.ok.injEq] at h
        subst h
        rfl
      | some f =>
        simp only [hf] at h
        by_cases h4 : s = floatStr f
        · rw [if_pos h4] at h
          simp only [Except.ok.injEq] at h
          subst h
          exact h4.symm
        · rw [if_neg h4] at h
          cases h
    · cases hn : pyIntParse s with
      | none =>
        simp only [hn, Except.ok.injEq] at h
        subst h
        rfl
      | some n =>
        simp only [hn] at h
        by_cases h4 : s = toString n
        · rw [if_pos h4] at h
          simp only [Except.ok.injEq] at h
          subst h
          exact h4.symm
        · rw [if_neg h4] at h
          cases h
  · intro s r h hne
    rw [attemptNum_str]
    unfold numCandidate at h
    by_cases hdot : strContains s "."
    · rw [if_pos hdot] at h
      rw [if_pos hdot]
      cases hf : pyFloatParse s with
      | none => rw [hf] at h; cases h
      | some f =>
        rw [hf] at h
        simp at h
        subst h
        have hne' : floatStr f ≠ s := hne
        have hcond : ¬ (s = floatStr f) := fun hh => hne' hh.symm
        simp [hcond]
    · rw [if_neg hdot] at h
      rw [if_neg hdot]
      cases hn : pyIntParse s with
      | none => rw [hn] at h; cases h
      | some n =>
        rw [hn] at h
        simp at h
        subst h
        have hne' : toString n ≠ s := hne
        have hcond : ¬ (s = toString n) := fun hh => hne' hh.symm
        simp [hcond]

/-- Witness for C1: the accepted string `TRUE` round-trips
case-insensitively, the accepted string `255` round-trips exactly, and
the string `007` (integer candidate 7, which re-stringifies to `7`)
raises the assertion failure. -/
theorem claim_C1_witness :
    pyLower (pyStr (PyVal.bool true)) = pyLower "TRUE" ∧
    pyStr (PyVal.int 255) = "255" ∧
    AttemptStrToNum (.str "007") = .error "AssertionError" :=
  ⟨claim_C1.1 "TRUE" (.bool true) rfl,
   claim_C1.2.1 "255" (.int 255) rfl (fun b hb => by cases hb),
   claim_C1.2.2 "007" (.int 7) rfl (by decide)⟩

/-- C2: the scalar coercion applies exactly this precedence to every
string leaf: the literal boolean words first (case-insensitively), then
— only if the string contains a `.` — a float parse and never an int
parse, else — only an int parse and never a float parse, keeping the
original string when the parse fails; in particular `1e3` stays a
string. -/
theorem claim_C2 :
    (∀ s : String, coerceString s =
      (if pyLower s = "true" then .ok (.bool true)
       else if pyLower s = "false" then .ok (.bool false)
       else if strContains s "." then
         match pyFloatParse s with
         | some f =>
           if s = floatStr f then .ok (.float f) else .error "AssertionError"
         | Option.none => .ok (.str s)
       else
         match pyIntParse s with
         | some n =>
           if s = toString n then .ok (.int n) else .error "AssertionError"
         | Option.none => .ok (.str s))) ∧
    coerceString "1e3" = .ok (.str "1e3") :=
  ⟨coerceString_spec, rfl⟩

/-! ### Claim C10 -/

/-- C10: `EnsureMember` installs the fresh empty value exactly when the
key is absent or its value is falsy (None, empty string, empty mapping,
empty list, 0, False), and leaves the entry alone exactly when the key is
present with a truthy value. -/
theorem claim_C10 :
    (∀ kvs k e v, dLookup kvs k = some v → pyTruthy v = true →
      EnsureMember (.dict kvs) k e = .ok (.dict kvs)) ∧
    (∀ kvs k e, dLookup kvs k = Option.none →
      EnsureMember (.dict kvs) k e = .ok (.dict (dSet kvs k e))) ∧
    (∀ kvs k e v, dLookup kvs k = some v → pyTruthy v = false →
      EnsureMember (.dict kvs) k e = .ok (.dict (dSet kvs k e))) ∧
    pyTruthy PyVal.none = false ∧ pyTruthy (.str "") = false ∧
    pyTruthy (.dict []) = false ∧ pyTruthy (.list []) = false ∧
    pyTruthy (.int 0) = false ∧ pyTruthy (.bool false) = false := by
  refine ⟨?_, ?_, ?_, rfl, rfl, rfl, rfl, rfl, rfl⟩
  · intro kvs k e v hl ht
    unfold EnsureMember
    simp [hl, ht]
  · intro kvs k e hl
    unfold EnsureMember
    simp [hl]
  · intro kvs k e v hl ht
    unfold EnsureMember
    simp [hl, ht]

/-- Witness for C10: a truthy `members` mapping is kept, an absent `link`
key is created as an empty list, and a present-but-None `members` entry
is replaced by an empty mapping. -/
theorem claim_C10_witness :
    EnsureMember (.dict [("members", .dict [("link", .str "x")])])
        "members" (.dict []) =
      .ok (.dict [("members", .dict [("link", .str "x")])]) ∧
    EnsureMember (.dict []) "link" (.list []) =
      .ok (.dict [("link", .list [])]) ∧
    EnsureMember (.dict [("members", PyVal.none)]) "members" (.dict []) =
      .ok (.dict [("members", .dict [])]) :=
  ⟨claim_C10.1 [("members", .dict [("link", .str "x")])] "members"
      (.dict []) (.dict [("link", .str "x")]) rfl rfl,
   claim_C10.2.1 [] "link" (.list []) rfl,
   claim_C10.2.2.1 [("members", PyVal.none)] "members" (.dict [])
      PyVal.none rfl rfl⟩


/-! ### Claim C3: protected keys survive coercion -/

theorem stnEntries_cons (skip : List String) (k : String) (v : PyVal)
    (rest : List (String × PyVal)) :
    stnEntries skip ((k, v) :: rest) = (do
      let v' ← stnEntry skip k v
      let r ← stnEntries skip rest
      Except.ok ((k, v') :: r)) := by
  cases v with
  | str s =>
    simp only [stnEntries, stnEntry]
    by_cases hsk : skip.contains k
    · simp only [if_pos hsk]
      rfl
    · simp only [if_neg hsk]
  | bool b => simp only [stnEntries, stnEntry]
  | int n => simp only [stnEntries, stnEntry]
  | float f => simp only [stnEntries, stnEntry]
  | none => simp only [stnEntries, stnEntry]
  | datetime dt => simp only [stnEntries, stnEntry]
  | dict d => simp only [stnEntries, stnEntry]
  | list l => simp only [stnEntries, stnEntry]

theorem stnItems_cons (skip : List String) (v : PyVal) (rest : List PyVal) :
    stnItems skip (v :: rest) = (do
      let v' ← stnItem skip v
      let r ← stnItems skip rest
      Except.ok (v' :: r)) := by
  cases v with
  | str s => simp only [stnItems, stnItem]
  | bool b => simp only [stnItems, stnItem]
  | int n => simp only [stnItems, stnItem]
  | float f => simp only [stnItems, stnItem]
  | none => simp only [stnItems, stnItem]
  | datetime dt => simp only [stnItems, stnItem]
  | dict d => simp only [stnItems, stnItem]
  | list l => simp only [stnItems, stnItem]

theorem sameSkippedD_cons (skip : List String) (k : String) (v : PyVal)
    (r : List (String × PyVal)) (k' : String) (v' : PyVal)
    (r' : List (String × PyVal)) :
    sameSkippedD skip ((k, v) :: r) ((k', v') :: r') =
      (k = k' && entrySkipOK skip k v v' && sameSkippedD skip r r') := by
  cases v with
  | str s => simp only [sameSkippedD, entrySkipOK]
  | bool b => simp only [sameSkippedD, entrySkipOK]
  | int n => simp only [sameSkippedD, entrySkipOK]
  | float f => simp only [sameSkippedD, entrySkipOK]
  | none => simp only [sameSkippedD, entrySkipOK]
  | datetime dt => simp only [sameSkippedD, entrySkipOK]
  | dict d => simp only [sameSkippedD, entrySkipOK]
  | list l => simp only [sameSkippedD, entrySkipOK]

theorem stnSame_aux (skip : List String) : ∀ n : Nat,
    (∀ v v', sizeOf v < n → StringToNumber skip v = .ok v' →
      sameSkipped skip v v' = true) ∧
    (∀ kvs kvs', sizeOf kvs < n → stnEntries skip kvs = .ok kvs' →
      sameSkippedD skip kvs kvs' = true) ∧
    (∀ xs xs', sizeOf xs < n → stnItems skip xs = .ok xs' →
      sameSkippedL skip xs xs' = true) := by
  intro n
  induction n with
  | zero =>
    exact ⟨fun v v' h => absurd h (Nat.not_lt_zero _),
      fun kvs kvs' h => absurd h (Nat.not_lt_zero _),
      fun xs xs' h => absurd h (Nat.not_lt_zero _)⟩
  | succ n ih =>
    obtain ⟨ihV, ihD, ihL⟩ := ih
    refine ⟨?_, ?_, ?_⟩
    · intro v v' hn h
      cases v with
      | str s => cases v' <;> simp [sameSkipped]
      | bool b => cases v' <;> simp [sameSkipped]
      | int m => cases v' <;> simp [sameSkipped]
      | float f => cases v' <;> simp [sameSkipped]
      | none => cases v' <;> simp [sameSkipped]
      | datetime dt => cases v' <;> simp [sameSkipped]
      | dict kvs =>
        unfold StringToNumber at h
        cases he : stnEntries skip kvs with
        | error e => rw [he] at h; exact Except.noConfusion h
        | ok r =>
          rw [he] at h
          have h2 : (Except.ok (PyVal.dict r) : Except String PyVal) =
            Except.ok v' := h
          have h3 := Except.ok.inj h2
          subst h3
          simp only [sameSkipped]
          refine ihD kvs r ?_ he
          simp only [PyVal.dict.sizeOf_spec] at hn
          omega
      | list xs =>
        unfold StringToNumber at h
        cases he : stnItems skip xs with
        | error e => rw [he] at h; exact Except.noConfusion h
        | ok r =>
          rw [he] at h
          have h2 : (Except.ok (PyVal.list r) : Except String PyVal) =
            Except.ok v' := h
          have h3 := Except.ok.inj h2
          subst h3
          simp only [sameSkipped]
          refine ihL xs r ?_ he
          simp only [PyVal.list.sizeOf_spec] at hn
          omega
    · intro kvs kvs' hn h
      cases kvs with
      | nil =>
        unfold stnEntries at h
        have h3 := Except.ok.inj h
        subst h3
        simp [sameSkippedD]
      | cons hd rest =>
        obtain ⟨k, v⟩ := hd
        have hsz : sizeOf v < n ∧ sizeOf rest < n := by
          simp only [List.cons.sizeOf_spec, Prod.mk.sizeOf_spec] at hn
          omega
        rw [stnEntries_cons] at h
        cases hv : stnEntry skip k v with
        | error e => rw [hv] at h; exact Except.noConfusion h
        | ok w =>
          rw [hv] at h
          cases hr : stnEntries skip rest with
          | error e => rw [hr] at h; exact Except.noConfusion h
          | ok r =>
            rw [hr] at h
            have h2 : (Except.ok ((k, w) :: r) :
                Except String (List (String × PyVal))) = Except.ok kvs' := h
            have h3 := Except.ok.inj h2
            subst h3
            have hrest := ihD rest r hsz.2 hr
            have hmid : entrySkipOK skip k v w = true := by
              cases v with
              | str s =>
                simp only [stnEntry] at hv
                simp only [entrySkipOK]
                by_cases hsk : skip.contains k
                · rw [if_pos hsk] at hv
                  have h4 := Except.ok.inj hv
                  subst h4
                  rw [if_pos hsk]
                  simp [pyEq]
                · rw [if_neg hsk]
              | bool b =>
                simp only [stnEntry] at hv
                simp only [entrySkipOK]
                exact ihV (.bool b) w hsz.1 hv
              | int m =>
                simp only [stnEntry] at hv
                simp only [entrySkipOK]
                exact ihV (.int m) w hsz.1 hv
              | float f =>
                simp only [stnEntry] at hv
                simp only [entrySkipOK]
                exact ihV (.float f) w hsz.1 hv
              | none =>
                simp only [stnEntry] at hv
                simp only [entrySkipOK]
                exact ihV PyVal.none w hsz.1 hv
              | datetime dt =>
                simp only [stnEntry] at hv
                simp only [entrySkipOK]
                exact ihV (.datetime dt) w hsz.1 hv
              | dict d =>
                simp only [stnEntry] at hv
                simp only [entrySkipOK]
                exact ihV (.dict d) w hsz.1 hv
              | list l =>
                simp only [stnEntry] at hv
                simp only [entrySkipOK]
                exact ihV (.list l) w hsz.1 hv
            rw [sameSkippedD_cons]
            simp [hmid, hrest]
    · intro xs xs' hn h
      cases xs with
      | nil =>
        unfold stnItems at h
        have h3 := Except.ok.inj h
        subst h3
        simp [sameSkippedL]
      | cons v rest =>
        have hsz : sizeOf v < n ∧ sizeOf rest < n := by
          simp only [List.cons.sizeOf_spec] at hn
          omega
        rw [stnItems_cons] at h
        cases hv : stnItem skip v with
        | error e => rw [hv] at h; exact Except.noConfusion h
        | ok w =>
          rw [hv] at h
          cases hr : stnItems skip rest with
          | error e => rw [hr] at h; exact Except.noConfusion h
          | ok r =>
            rw [hr] at h
            have h2 : (Except.ok (w :: r) : Except String (List PyVal)) =
              Except.ok xs' := h
            have h3 := Except.ok.inj h2
            subst h3
            have hrest := ihL rest r hsz.2 hr
            have hmid : sameSkipped skip v w = true := by
              cases v with
              | str s => cases w <;> simp [sameSkipped]
              | bool b =>
                simp only [stnItem] at hv
                exact ihV (.bool b) w hsz.1 hv
              | int m =>
                simp only [stnItem] at hv
                exact ihV (.int m) w hsz.1 hv
              | float f =>
                simp only [stnItem] at hv
                exact ihV (.float f) w hsz.1 hv
              | none =>
                simp only [stnItem] at hv
                exact ihV PyVal.none w hsz.1 hv
              | datetime dt =>
                simp only [stnItem] at hv
                exact ihV (.datetime dt) w hsz.1 hv
              | dict d =>
                simp only [stnItem] at hv
                exact ihV (.dict d) w hsz.1 hv
              | list l =>
                simp only [stnItem] at hv
                exact ihV (.list l) w hsz.1 hv
            simp [sameSkippedL, hmid, hrest]

theorem stn_sameSkipped (skip : List String) (v v' : PyVal)
    (h : StringToNumber skip v = .ok v') : sameSkipped skip v v' = true :=
  (stnSame_aux skip (sizeOf v + 1)).1 v v' (Nat.lt_succ_self _) h


/-- C3: a string value stored directly under a key listed in `skipKeys`
survives the recursive coercion pass unchanged at every nesting depth;
in particular the program transform leaves the digit-string field
`id = "5"` a string, because `id` is in the program skip set. -/
theorem claim_C3 :
    (∀ skip (v v' : PyVal), StringToNumber skip v = .ok v' →
      sameSkipped skip v v' = true) ∧
    TransformProgram (.dict [("id", .str "5"), ("name", .str "myprog")]) =
      .ok (.dict [("id", .str "5"), ("name", .str "myprog")]) :=
  ⟨fun skip v v' h => stn_sameSkipped skip v v' h, rfl⟩

/-- Witness for C3: the address string `012345` (which would drop its
leading zero as an integer) is protected by `skipKeys=["address"]`, even
nested one level down. -/
theorem claim_C3_witness :
    sameSkipped ["address"] (.dict [("address", .str "012345")])
      (.dict [("address", .str "012345")]) = true ∧
    sameSkipped ["address"]
      (.dict [("node", .dict [("address", .str "012345")])])
      (.dict [("node", .dict [("address", .str "012345")])]) = true :=
  ⟨claim_C3.1 ["address"] (.dict [("address", .str "012345")])
      (.dict [("address", .str "012345")]) rfl,
   claim_C3.1 ["address"] (.dict [("node", .dict [("address", .str "012345")])])
      (.dict [("node", .dict [("address", .str "012345")])]) rfl⟩

/-! ### Claim C5: absent repeatable fields become empty lists -/

theorem dPop_dSet_absent (kvs : List (String × PyVal)) (k : String)
    (e : PyVal) (h : dLookup kvs k = Option.none) :
    dPop (dSet kvs k e) k = some (e, kvs) := by
  induction kvs with
  | nil => simp [dSet, dPop]
  | cons hd rest ih =>
    obtain ⟨k0, v0⟩ := hd
    by_cases h0 : k0 = k
    · simp [dLookup, h0] at h
    · simp only [dLookup, if_neg h0] at h
      simp [dSet, dPop, h0, ih h]

theorem stn_keeps_empty_list (skip : List String)
    (kvs kvs' : List (String × PyVal)) (k : String)
    (h : stnEntries skip kvs = .ok kvs')
    (hl : dLookup kvs k = some (.list [])) :
    dLookup kvs' k = some (.list []) := by
  induction kvs generalizing kvs' with
  | nil => simp [dLookup] at hl
  | cons hd rest ih =>
    obtain ⟨k0, v⟩ := hd
    rw [stnEntries_cons] at h
    cases hv : stnEntry skip k0 v with
    | error e => rw [hv] at h; exact Except.noConfusion h
    | ok w =>
      rw [hv] at h
      cases hr : stnEntries skip rest with
      | error e => rw [hr] at h; exact Except.noConfusion h
      | ok r =>
        rw [hr] at h
        have h2 : (Except.ok ((k0, w) :: r) :
            Except String (List (String × PyVal))) = Except.ok kvs' := h
        have h3 := Except.ok.inj h2
        subst h3
        by_cases h0 : k0 = k
        · subst h0
          simp only [dLookup, if_pos rfl] at hl ⊢
          have hv' := hl
          cases hv'
          simp only [stnEntry, StringToNumber, stnItems] at hv
          have h4 : (Except.ok (PyVal.list []) : Except String PyVal) =
            Except.ok w := hv
          have h5 := Except.ok.inj h4
          subst h5
          rfl
        · simp only [dLookup, if_neg h0] at hl ⊢
          exact ih r hr hl

theorem bind_ok_E {α β : Type} (a : α) (f : α → Except String β) :
    (Except.ok a : Except String α) >>= f = f a := rfl

/-- C5: when a repeatable field is entirely absent after attribute
unwrapping, normalization still produces the field as an empty list (not
null and not a missing key): a node without `property` gets
`properties == []`, and a group without `members` gets `members == []`
(also shown concretely, including an empty `<members/>` payload). -/
theorem claim_C5 :
    (∀ kvs kvs' out, AttrToMember (.dict kvs) = .dict kvs' →
      dLookup kvs' "property" = Option.none →
      TransformNode (.dict kvs) = .ok out →
      pyLookup out "properties" = some (.list [])) ∧
    (∀ kvs kvs' out, AttrToMember (.dict kvs) = .dict kvs' →
      dLookup kvs' "members" = Option.none →
      TransformGroup (.dict kvs) = .ok out →
      pyLookup out "members" = some (.list [])) ∧
    TransformNode (.dict [("name", .str "Lamp")]) =
      .ok (.dict [("name", .str "Lamp"), ("properties", .list [])]) ∧
    TransformGroup (.dict [("name", .str "G"), ("members", PyVal.none)]) =
      .ok (.dict [("name", .str "G"), ("members", .list [])]) := by
  refine ⟨?_, ?_, rfl, rfl⟩
  · intro kvs kvs' out hattr hnone h
    unfold TransformNode at h
    rw [hattr] at h
    simp only [EnsureMember, hnone] at h
    rw [bind_ok_E] at h
    have hpop := dPop_dSet_absent kvs' "property" (.list []) hnone
    simp only [hpop] at h
    have hprops : transformProps (PyVal.list []) = .ok (.list []) := rfl
    simp only [hprops] at h
    rw [bind_ok_E] at h
    unfold StringToNumber at h
    cases he : stnEntries ["address"] (dSet kvs' "properties" (.list [])) with
    | error e => rw [he] at h; exact Except.noConfusion h
    | ok r =>
      rw [he] at h
      have h2 : (Except.ok (PyVal.dict r) : Except String PyVal) =
        Except.ok out := h
      have h3 := Except.ok.inj h2
      subst h3
      simp only [pyLookup]
      exact stn_keeps_empty_list ["address"] _ r "properties" he
        (dLookup_dSet_self kvs' "properties" (.list []))
  · intro kvs kvs' out hattr hnone h
    unfold TransformGroup at h
    rw [hattr] at h
    simp only [EnsureMember, hnone] at h
    rw [bind_ok_E] at h
    have hlk := dLookup_dSet_self kvs' "members" (.dict [])
    simp only [hlk] at h
    simp only [dLookup, dSet] at h
    rw [bind_ok_E] at h
    have h4 : StringToNumber ["address"]
        (.dict (dSet (dSet kvs' "members" (.dict [])) "members"
          (.list []))) = Except.ok out := h
    unfold StringToNumber at h4
    cases he : stnEntries ["address"]
        (dSet (dSet kvs' "members" (.dict [])) "members" (.list [])) with
    | error e => rw [he] at h4; exact Except.noConfusion h4
    | ok r =>
      rw [he] at h4
      have h2 : (Except.ok (PyVal.dict r) : Except String PyVal) =
        Except.ok out := h4
      have h3 := Except.ok.inj h2
      subst h3
      simp only [pyLookup]
      exact stn_keeps_empty_list ["address"] _ r "members" he
        (dLookup_dSet_self (dSet kvs' "members" (.dict [])) "members"
          (.list []))

/-- Witness for C5: the two general parts applied to a node and a group
with the repeatable field absent. -/
theorem claim_C5_witness :
    pyLookup (.dict [("name", .str "Lamp"), ("properties", .list [])])
      "properties" = some (.list []) ∧
    pyLookup (.dict [("name", .str "G"), ("members", .list [])])
      "members" = some (.list []) :=
  ⟨claim_C5.1 [("name", .str "Lamp")] [("name", .str "Lamp")]
      (.dict [("name", .str "Lamp"), ("properties", .list [])]) rfl rfl rfl,
   claim_C5.2.1 [("name", .str "G")] [("name", .str "G")]
      (.dict [("name", .str "G"), ("members", .list [])]) rfl rfl rfl⟩

/-! ### Claim C8: program timestamps -/

/-- C8: for the program timestamp fields, an absent or empty (falsy)
value normalizes to None and is never an error; a value in the fixed
`YYYY/MM/DD HH:MM:SS AM|PM` format — including the double-space quirk of
a single-digit hour — parses to the structured date/time; any malformed
timestamp raises a parse error which the program transform propagates
uncaught. -/
theorem claim_C8 :
    (∀ v, pyTruthy v = false → StringToDate v = .ok PyVal.none) ∧
    StringToDate (.str "2021/03/05  9:15:00 AM") =
      .ok (.datetime ⟨2021, 3, 5, 9, 15, 0⟩) ∧
    (∀ s, pyTruthy (.str s) = true →
      pyStrptime (pyReplace s "  " " 0") = Option.none →
      StringToDate (.str s) = .error "ValueError") ∧
    TransformProgram (.dict [("id", .str "1"),
        ("lastRunTime", .str "2021/03/05  9:15:00 AM")]) =
      .ok (.dict [("id", .str "1"),
        ("lastRunTime", .datetime ⟨2021, 3, 5, 9, 15, 0⟩)]) ∧
    TransformProgram (.dict [("lastRunTime", .str "garbage")]) =
      .error "ValueError" := by
  refine ⟨?_, rfl, ?_, rfl, rfl⟩
  · intro v hf
    unfold StringToDate
    rw [hf]
    rfl
  · intro s ht hp
    unfold StringToDate
    rw [ht]
    simp only [Bool.true_eq_false, reduceIte, hp]

/-- Witness for C8: the empty timestamp string normalizes to None, and a
malformed timestamp (wrong separators) raises the parse error. -/
theorem claim_C8_witness :
    StringToDate (.str "") = .ok PyVal.none ∧
    StringToDate (.str "2021-03-05") = .error "ValueError" :=
  ⟨claim_C8.1 (.str "") rfl, claim_C8.2.2.1 "2021-03-05" rfl rfl⟩

/-! ### Claim C4: single-occurrence collapse -/

/-- C4 (evaluation at the failing input): a group with exactly one
member link — which the XML layer collapses to a bare payload under
`link` — is not normalized to a one-element list: the transform flattens
`members` to the bare payload itself, here the string `1A 2B`, so the
canonical record's `members` is not a list at all.  (The node half of
the claim does hold: see the single-property node in `claim_C7`'s
scenario, whose `properties` is a one-element list.) -/
theorem claim_C4_failing :
    TransformGroup (.dict [("name", .str "G"),
        ("members", .dict [("link", .str "1A 2B")])]) =
      .ok (.dict [("name", .str "G"), ("members", .str "1A 2B")]) ∧
    pyIsList (.str "1A 2B") = false :=
  ⟨rfl, rfl⟩

/-! ### Claim C9: the transforms are not idempotent -/

/-- C9 (counterexample): applying `TransformNode` to an already-canonical
node record is not a no-op — the canonical record lacks the raw
`property` key, so the re-transform resets `properties` to the empty
list, losing the property records. -/
theorem claim_C9_counterexample :
    TransformNode (.dict [("address", .str "1A 2B 3C 1"),
        ("name", .str "Lamp"),
        ("properties", .list [.dict [("id", .str "ST"),
          ("name", .str "State"), ("rawvalue", .int 255),
          ("value", .str "On")]])]) =
      .ok (.dict [("address", .str "1A 2B 3C 1"), ("name", .str "Lamp"),
        ("properties", .list [])]) ∧
    pyEq (.dict [("address", .str "1A 2B 3C 1"), ("name", .str "Lamp"),
        ("properties", .list [])])
      (.dict [("address", .str "1A 2B 3C 1"), ("name", .str "Lamp"),
        ("properties", .list [.dict [("id", .str "ST"),
          ("name", .str "State"), ("rawvalue", .int 255),
          ("value", .str "On")]])]) = false :=
  ⟨rfl, rfl⟩

/-- C9 (amended): re-applying the full transforms to already-canonical
records is not a no-op: the node transform wipes `properties` to `[]`,
the group transform fails on a canonical (list-valued) `members`, and
the program transform fails on an already-converted timestamp. -/
theorem claim_C9 :
    TransformNode (.dict [("address", .str "1A 2B 3C 1"),
        ("name", .str "Lamp"),
        ("properties", .list [.dict [("id", .str "ST"),
          ("name", .str "State"), ("rawvalue", .int 255),
          ("value", .str "On")]])]) =
      .ok (.dict [("address", .str "1A 2B 3C 1"), ("name", .str "Lamp"),
        ("properties", .list [])]) ∧
    TransformGroup (.dict [("address", .str "123 45 67 8"),
        ("name", .str "G"),
        ("members", .list [.dict [("address", .str "1A 2B")]])]) =
      .error "TypeError" ∧
    TransformProgram (.dict [("id", .str "5"),
        ("lastRunTime", .datetime ⟨2021, 3, 5, 9, 15, 0⟩)]) =
      .error "TypeError" :=
  ⟨rfl, rfl, rfl⟩

/-! ### Claim C7: the property split -/

theorem isSome_dSet (kvs : List (String × PyVal)) (k k' : String) (v : PyVal)
    (h : (dLookup kvs k).isSome = true) :
    (dLookup (dSet kvs k' v) k).isSome = true := by
  by_cases hk : k = k'
  · subst hk
    simp [dLookup_dSet_self]
  · rw [dLookup_dSet_other kvs k' k v hk]
    exact h

theorem isSome_dSet_if (c : Prop) [Decidable c]
    (kvs : List (String × PyVal)) (k k' : String) (v : PyVal)
    (h : (dLookup kvs k).isSome = true) :
    (dLookup (if c then dSet kvs k' v else kvs) k).isSome = true := by
  by_cases hc : c
  · rw [if_pos hc]
    exact isSome_dSet kvs k k' v h
  · rw [if_neg hc]
    exact h

/-- C7 (counterexample): the documented scenario — node with
`@address = "1A 2B 3C 1"` and a single property `id="ST"`,
`value="255"`, `formatted="On"` — does not produce the claimed
`rawvalue = "255"`: the final coercion pass also converts `rawvalue`, so
the canonical record holds the integer 255, which is not the string
`"255"`. -/
theorem claim_C7_counterexample :
    TransformNode (.dict [("@address", .str "1A 2B 3C 1"),
        ("name", .str "Lamp"),
        ("property", .dict [("id", .str "ST"), ("value", .str "255"),
          ("formatted", .str "On")])]) =
      .ok (.dict [("name", .str "Lamp"), ("address", .str "1A 2B 3C 1"),
        ("properties", .list [.dict [("id", .str "ST"),
          ("rawvalue", .int 255), ("value", .str "On"),
          ("name", .str "State")]])]) ∧
    pyEq (.int 255) (.str "255") = false :=
  ⟨rfl, rfl⟩

/-- C7 (amended): after the node transform every property record carries
`rawvalue`, `value` and `name` fields (split from the original
`value`/`formatted` payloads, `name` derived from `id` with the `ST`
override); the `rawvalue` payload is then scalar-coerced like any other
non-protected field, so the documented scenario yields `address`
untouched and `properties == [{id: "ST", rawvalue: 255, value: "On",
name: "State"}]` with the integer 255. -/
theorem claim_C7 :
    (∀ p p', transformProp p = .ok p' →
      pyHasKey p' "rawvalue" = true ∧ pyHasKey p' "value" = true ∧
      pyHasKey p' "name" = true) ∧
    TransformNode (.dict [("@address", .str "1A 2B 3C 1"),
        ("name", .str "Lamp"),
        ("property", .dict [("id", .str "ST"), ("value", .str "255"),
          ("formatted", .str "On")])]) =
      .ok (.dict [("name", .str "Lamp"), ("address", .str "1A 2B 3C 1"),
        ("properties", .list [.dict [("id", .str "ST"),
          ("rawvalue", .int 255), ("value", .str "On"),
          ("name", .str "State")]])]) := by
  refine ⟨?_, rfl⟩
  intro p p' h
  cases p with
  | str s => exact Except.noConfusion h
  | bool b => exact Except.noConfusion h
  | int n => exact Except.noConfusion h
  | float f => exact Except.noConfusion h
  | none => exact Except.noConfusion h
  | datetime dt => exact Except.noConfusion h
  | list l => exact Except.noConfusion h
  | dict kvs =>
    cases hpv : dPop kvs "value" with
    | none => simp [transformProp, hpv] at h
    | some pr =>
      obtain ⟨rv, kvs1⟩ := pr
      cases hpf : dPop (dSet kvs1 "rawvalue" rv) "formatted" with
      | none => simp [transformProp, hpv, hpf] at h
      | some pr2 =>
        obtain ⟨fv, kvs3⟩ := pr2
        cases fv with
        | bool b => simp [transformProp, hpv, hpf] at h
        | int n => simp [transformProp, hpv, hpf] at h
        | float f => simp [transformProp, hpv, hpf] at h
        | none => simp [transformProp, hpv, hpf] at h
        | datetime dt => simp [transformProp, hpv, hpf] at h
        | dict d => simp [transformProp, hpv, hpf] at h
        | list l => simp [transformProp, hpv, hpf] at h
        | str fs =>
          cases hid : dLookup (dSet kvs3 "value" (.str (pyStrip fs)))
              "id" with
          | none => simp [transformProp, hpv, hpf, hid] at h
          | some idv =>
            cases idv with
            | bool b => simp [transformProp, hpv, hpf, hid] at h
            | int n => simp [transformProp, hpv, hpf, hid] at h
            | float f => simp [transformProp, hpv, hpf, hid] at h
            | none => simp [transformProp, hpv, hpf, hid] at h
            | datetime dt => simp [transformProp, hpv, hpf, hid] at h
            | dict d => simp [transformProp, hpv, hpf, hid] at h
            | list l => simp [transformProp, hpv, hpf, hid] at h
            | str ids =>
              simp only [transformProp, hpv, hpf, hid,
                Except.ok.injEq] at h
              subst h
              refine ⟨?_, ?_, ?_⟩ <;> simp only [pyHasKey, pyLookup]
              · apply isSome_dSet_if
                apply isSome_dSet_if
                apply isSome_dSet
                apply isSome_dSet
                rw [dLookup_dPop_other (dSet kvs1 "rawvalue" rv) kvs3
                  "formatted" "rawvalue" (.str fs) hpf (by decide)]
                simp [dLookup_dSet_self]
              · apply isSome_dSet_if
                apply isSome_dSet_if
                apply isSome_dSet
                simp [dLookup_dSet_self]
              · apply isSome_dSet_if
                apply isSome_dSet_if
                simp [dLookup_dSet_self]

/-- Witness for C7: the general field-presence part applied to the
scenario's single property record. -/
theorem claim_C7_witness :
    pyHasKey (.dict [("id", .str "ST"), ("rawvalue", .str "255"),
      ("value", .str "On"), ("name", .str "State")]) "rawvalue" = true ∧
    pyHasKey (.dict [("id", .str "ST"), ("rawvalue", .str "255"),
      ("value", .str "On"), ("name", .str "State")]) "value" = true ∧
    pyHasKey (.dict [("id", .str "ST"), ("rawvalue", .str "255"),
      ("value", .str "On"), ("name", .str "State")]) "name" = true :=
  claim_C7.1 (.dict [("id", .str "ST"), ("value", .str "255"),
    ("formatted", .str "On")])
    (.dict [("id", .str "ST"), ("rawvalue", .str "255"),
      ("value", .str "On"), ("name", .str "State")]) rfl

/-! ### Claim C6: the attribute-unwrap pass -/

theorem atMarked_atStr (a : String) : atMarked (atStr a) = true := rfl

theorem strTail_atStr (a : String) : strTail (atStr a) = a := rfl

theorem atStr_inj (a b : String) (h : atStr a = atStr b) : a = b := by
  have hd := congrArg String.data h
  simp only [atStr] at hd
  injection hd with h1 h2
  exact String.ext h2

theorem marked_eq_atStr_strTail (k : String) (h : atMarked k = true) :
    k = atStr (strTail k) := by
  obtain ⟨data⟩ := k
  cases data with
  | nil => simp [atMarked] at h
  | cons c cs =>
    simp only [atMarked, decide_eq_true_eq] at h
    subst h
    rfl

theorem atMarked_ne (a k : String) (ha : atMarked a = false)
    (hk : atMarked k = true) : k ≠ a := by
  intro h
  subst h
  rw [hk] at ha
  exact Bool.noConfusion ha

theorem attrEntries_lookup (kvs : List (String × PyVal)) (k : String) :
    dLookup (attrEntries kvs) k = (dLookup kvs k).map AttrToMember := by
  induction kvs with
  | nil => simp [attrEntries, dLookup]
  | cons hd rest ih =>
    obtain ⟨k0, v0⟩ := hd
    by_cases h0 : k0 = k
    · simp [attrEntries, dLookup, h0]
    · simp [attrEntries, dLookup, h0, ih]

theorem dKeys_attrEntries (kvs : List (String × PyVal)) :
    dKeys (attrEntries kvs) = dKeys kvs := by
  induction kvs with
  | nil => simp [attrEntries]
  | cons hd rest ih =>
    obtain ⟨k0, v0⟩ := hd
    simp [attrEntries, dKeys_cons, ih]

theorem loop_keeps (snapshot : List String)
    (d : List (String × PyVal)) (a : String) (x : PyVal)
    (ha : atMarked a = false) (hnot : ¬ atStr a ∈ snapshot)
    (hl : dLookup d a = some x) :
    dLookup (attrRenameLoop snapshot d) a = some x := by
  induction snapshot generalizing d with
  | nil => exact hl
  | cons k rest ih =>
    unfold attrRenameLoop
    by_cases hm : atMarked k
    · rw [if_pos hm]
      cases hp : dPop d k with
      | none =>
        exact ih d (fun hmem => hnot (List.mem_cons_of_mem k hmem)) hl
      | some pr =>
        obtain ⟨w, d'⟩ := pr
        have hka : a ≠ k := fun h =>
          atMarked_ne a k ha hm h.symm
        have hl' : dLookup d' a = some x := by
          rw [dLookup_dPop_other d d' k a w hp hka]
          exact hl
        have hta : strTail k ≠ a := by
          intro h
          apply hnot
          have : k = atStr a := by
            rw [← h]
            exact marked_eq_atStr_strTail k hm
          rw [← this]
          exact List.mem_cons_self k rest
        refine ih (dSet d' (strTail k) w)
          (fun hmem => hnot (List.mem_cons_of_mem k hmem)) ?_
        rw [dLookup_dSet_other d' (strTail k) a w
          (fun h => hta h.symm)]
        exact hl'
    · rw [if_neg hm]
      exact ih d (fun hmem => hnot (List.mem_cons_of_mem k hmem)) hl

theorem loop_hits (snapshot : List String)
    (d : List (String × PyVal)) (a : String) (x : PyVal)
    (hnd : snapshot.Nodup) (ha : atMarked a = false)
    (hin : atStr a ∈ snapshot) (hnot2 : ¬ atStr (atStr a) ∈ snapshot)
    (hl : dLookup d (atStr a) = some x) :
    dLookup (attrRenameLoop snapshot d) a = some x := by
  induction snapshot generalizing d with
  | nil => cases hin
  | cons k rest ih =>
    unfold attrRenameLoop
    by_cases hk : k = atStr a
    · subst hk
      rw [if_pos (atMarked_atStr a)]
      obtain ⟨d', hp⟩ := dPop_of_dLookup d (atStr a) x hl
      rw [hp]
      rw [strTail_atStr]
      have hnotrest : ¬ atStr a ∈ rest := (List.nodup_cons.mp hnd).1
      exact loop_keeps rest (dSet d' a x) a x ha hnotrest
        (dLookup_dSet_self d' a x)
    · have hin' : atStr a ∈ rest := by
        cases List.mem_cons.mp hin with
        | inl h => exact absurd h.symm hk
        | inr h => exact h
      have hnot2' : ¬ atStr (atStr a) ∈ rest :=
        fun hmem => hnot2 (List.mem_cons_of_mem k hmem)
      have hnd' : rest.Nodup := (List.nodup_cons.mp hnd).2
      by_cases hm : atMarked k
      · rw [if_pos hm]
        cases hp : dPop d k with
        | none => exact ih d hnd' hin' hnot2' hl
        | some pr =>
          obtain ⟨w, d'⟩ := pr
          have hl' : dLookup d' (atStr a) = some x := by
            rw [dLookup_dPop_other d d' k (atStr a) w hp
              (fun h => hk h.symm)]
            exact hl
          have hta : strTail k ≠ atStr a := by
            intro h
            apply hnot2
            have : k = atStr (atStr a) := by
              rw [← h]
              exact marked_eq_atStr_strTail k hm
            rw [← this]
            exact List.mem_cons_self k rest
          refine ih (dSet d' (strTail k) w) hnd' hin' hnot2' ?_
          rw [dLookup_dSet_other d' (strTail k) (atStr a) w
            (fun h => hta h.symm)]
          exact hl'
      · rw [if_neg hm]
        exact ih d hnd' hin' hnot2' hl

theorem keysNodupB_iff (l : List String) :
    keysNodupB l = true ↔ l.Nodup := by
  induction l with
  | nil => simp [keysNodupB]
  | cons k rest ih => simp [keysNodupB, List.nodup_cons, ih, List.contains]

theorem mem_dKeys_dSet (kvs : List (String × PyVal)) (k k' : String)
    (v : PyVal) :
    k' ∈ dKeys (dSet kvs k v) ↔ k' ∈ dKeys kvs ∨ k' = k := by
  induction kvs with
  | nil => simp [dSet, dKeys]
  | cons hd rest ih =>
    obtain ⟨k0, v0⟩ := hd
    by_cases h0 : k0 = k
    · subst h0
      simp [dSet, dKeys_cons, List.mem_cons]
      tauto
    · simp [dSet, h0, dKeys_cons, List.mem_cons, ih]
      tauto

theorem nodup_dSet (kvs : List (String × PyVal)) (k : String) (v : PyVal)
    (h : (dKeys kvs).Nodup) : (dKeys (dSet kvs k v)).Nodup := by
  induction kvs with
  | nil => simp [dSet, dKeys]
  | cons hd rest ih =>
    obtain ⟨k0, v0⟩ := hd
    rw [dKeys_cons, List.nodup_cons] at h
    by_cases h0 : k0 = k
    · subst h0
      simp only [dSet, reduceIte, dKeys_cons, List.nodup_cons]
      exact h
    · simp only [dSet, if_neg h0, dKeys_cons, List.nodup_cons]
      refine ⟨?_, ih h.2⟩
      intro hmem
      rw [mem_dKeys_dSet rest k k0 v] at hmem
      cases hmem with
      | inl hmem => exact h.1 hmem
      | inr hmem => exact h0 hmem

theorem dPop_sublist (kvs rest : List (String × PyVal)) (k : String)
    (w : PyVal) (h : dPop kvs k = some (w, rest)) : rest.Sublist kvs := by
  induction kvs generalizing rest with
  | nil => simp [dPop] at h
  | cons hd tl ih =>
    obtain ⟨k0, v0⟩ := hd
    by_cases h0 : k0 = k
    · simp only [dPop, if_pos h0] at h
      cases h
      exact List.Sublist.cons _ (List.Sublist.refl tl)
    · simp only [dPop, if_neg h0] at h
      cases hp : dPop tl k with
      | none => rw [hp] at h; cases h
      | some pr =>
        obtain ⟨w0, rest0⟩ := pr
        rw [hp] at h
        cases h
        exact List.Sublist.cons₂ _ (ih rest0 hp)

theorem nodup_dPop (kvs rest : List (String × PyVal)) (k : String)
    (w : PyVal) (hp : dPop kvs k = some (w, rest))
    (h : (dKeys kvs).Nodup) : (dKeys rest).Nodup := by
  have hsub : (dKeys rest).Sublist (dKeys kvs) :=
    (dPop_sublist kvs rest k w hp).map Prod.fst
  exact List.Nodup.sublist hsub h

theorem nodup_loop (snapshot : List String) (d : List (String × PyVal))
    (h : (dKeys d).Nodup) : (dKeys (attrRenameLoop snapshot d)).Nodup := by
  induction snapshot generalizing d with
  | nil => exact h
  | cons k rest ih =>
    unfold attrRenameLoop
    by_cases hm : atMarked k
    · rw [if_pos hm]
      cases hp : dPop d k with
      | none => exact ih d h
      | some pr =>
        obtain ⟨w, d'⟩ := pr
        exact ih (dSet d' (strTail k) w)
          (nodup_dSet d' (strTail k) w (nodup_dPop d d' k w hp h))
    · rw [if_neg hm]
      exact ih d h

theorem dSet_vals (P : PyVal → Prop) (kvs : List (String × PyVal))
    (k : String) (v : PyVal) (hall : ∀ kv ∈ kvs, P kv.2) (hv : P v) :
    ∀ kv ∈ dSet kvs k v, P kv.2 := by
  induction kvs with
  | nil =>
    intro kv hkv
    simp only [dSet, List.mem_singleton] at hkv
    subst hkv
    exact hv
  | cons hd rest ih =>
    obtain ⟨k0, v0⟩ := hd
    intro kv hkv
    by_cases h0 : k0 = k
    · simp only [dSet, if_pos h0, List.mem_cons] at hkv
      cases hkv with
      | inl h => subst h; exact hv
      | inr h => exact hall kv (List.mem_cons_of_mem _ h)
    · simp only [dSet, if_neg h0, List.mem_cons] at hkv
      cases hkv with
      | inl h => subst h; exact hall (k0, v0) (List.mem_cons_self _ _)
      | inr h =>
        exact ih (fun kv' hkv' => hall kv' (List.mem_cons_of_mem _ hkv'))
          kv h

theorem dPop_vals (P : PyVal → Prop) (kvs rest : List (String × PyVal))
    (k : String) (w : PyVal) (hp : dPop kvs k = some (w, rest))
    (hall : ∀ kv ∈ kvs, P kv.2) : P w ∧ ∀ kv ∈ rest, P kv.2 := by
  induction kvs generalizing rest with
  | nil => simp [dPop] at hp
  | cons hd tl ih =>
    obtain ⟨k0, v0⟩ := hd
    by_cases h0 : k0 = k
    · simp only [dPop, if_pos h0] at hp
      cases hp
      exact ⟨hall (k0, w) (List.mem_cons_self _ _),
        fun kv hkv => hall kv (List.mem_cons_of_mem _ hkv)⟩
    · simp only [dPop, if_neg h0] at hp
      cases hrec : dPop tl k with
      | none => rw [hrec] at hp; cases hp
      | some pr =>
        obtain ⟨w0, rest0⟩ := pr
        rw [hrec] at hp
        cases hp
        have hih := ih rest0 hrec
          (fun kv hkv => hall kv (List.mem_cons_of_mem _ hkv))
        refine ⟨hih.1, ?_⟩
        intro kv hkv
        cases List.mem_cons.mp hkv with
        | inl h => subst h; exact hall (k0, v0) (List.mem_cons_self _ _)
        | inr h => exact hih.2 kv h

theorem loop_vals (P : PyVal → Prop) (snapshot : List String)
    (d : List (String × PyVal)) (hall : ∀ kv ∈ d, P kv.2) :
    ∀ kv ∈ attrRenameLoop snapshot d, P kv.2 := by
  induction snapshot generalizing d with
  | nil => exact hall
  | cons k rest ih =>
    unfold attrRenameLoop
    by_cases hm : atMarked k
    · rw [if_pos hm]
      cases hp : dPop d k with
      | none => exact ih d hall
      | some pr =>
        obtain ⟨w, d'⟩ := pr
        have hv := dPop_vals P d d' k w hp hall
        exact ih (dSet d' (strTail k) w)
          (dSet_vals P d' (strTail k) w hv.2 hv.1)
    · rw [if_neg hm]
      exact ih d hall

theorem entriesUnique_iff (kvs : List (String × PyVal)) :
    entriesUnique kvs = true ↔ ∀ kv ∈ kvs, keysUnique kv.2 = true := by
  induction kvs with
  | nil => simp [entriesUnique]
  | cons hd rest ih =>
    obtain ⟨k0, v0⟩ := hd
    simp only [entriesUnique, Bool.and_eq_true, ih]
    constructor
    · rintro ⟨h1, h2⟩ kv hkv
      rcases List.mem_cons.mp hkv with h | h
      · subst h
        exact h1
      · exact h2 kv h
    · intro hall
      exact ⟨hall (k0, v0) (List.mem_cons_self _ _),
        fun kv hkv => hall kv (List.mem_cons_of_mem _ hkv)⟩

theorem itemsUnique_iff (xs : List PyVal) :
    itemsUnique xs = true ↔ ∀ x ∈ xs, keysUnique x = true := by
  induction xs with
  | nil => simp [itemsUnique]
  | cons v rest ih => simp [itemsUnique, ih]

theorem keysUnique_attr_aux : ∀ n : Nat,
    (∀ v, sizeOf v < n → keysUnique v = true →
      keysUnique (AttrToMember v) = true) ∧
    (∀ kvs : List (String × PyVal), sizeOf kvs < n →
      entriesUnique kvs = true → entriesUnique (attrEntries kvs) = true) ∧
    (∀ xs : List PyVal, sizeOf xs < n →
      itemsUnique xs = true → itemsUnique (attrItems xs) = true) := by
  intro n
  induction n with
  | zero =>
    exact ⟨fun v h => absurd h (Nat.not_lt_zero _),
      fun kvs h => absurd h (Nat.not_lt_zero _),
      fun xs h => absurd h (Nat.not_lt_zero _)⟩
  | succ n ih =>
    obtain ⟨ihV, ihD, ihL⟩ := ih
    refine ⟨?_, ?_, ?_⟩
    · intro v hn h
      cases v with
      | str s => simp [AttrToMember, keysUnique]
      | bool b => simp [AttrToMember, keysUnique]
      | int m => simp [AttrToMember, keysUnique]
      | float f => simp [AttrToMember, keysUnique]
      | none => simp [AttrToMember, keysUnique]
      | datetime dt => simp [AttrToMember, keysUnique]
      | dict kvs =>
        simp only [AttrToMember, keysUnique, Bool.and_eq_true] at h ⊢
        have hsz : sizeOf kvs < n := by
          simp only [PyVal.dict.sizeOf_spec] at hn
          omega
        have hent := ihD kvs hsz h.2
        constructor
        · rw [keysNodupB_iff]
          apply nodup_loop
          rw [dKeys_attrEntries]
          exact (keysNodupB_iff (dKeys kvs)).mp h.1
        · rw [entriesUnique_iff]
          exact loop_vals (fun w => keysUnique w = true) (dKeys kvs)
            (attrEntries kvs) ((entriesUnique_iff (attrEntries kvs)).mp hent)
      | list xs =>
        simp only [AttrToMember, keysUnique] at h ⊢
        have hsz : sizeOf xs < n := by
          simp only [PyVal.list.sizeOf_spec] at hn
          omega
        exact ihL xs hsz h
    · intro kvs hn h
      cases kvs with
      | nil => simp [attrEntries, entriesUnique]
      | cons hd rest =>
        obtain ⟨k, v⟩ := hd
        simp only [attrEntries, entriesUnique, Bool.and_eq_true] at h ⊢
        have hsz : sizeOf v < n ∧ sizeOf rest < n := by
          simp only [List.cons.sizeOf_spec, Prod.mk.sizeOf_spec] at hn
          omega
        exact ⟨ihV v hsz.1 h.1, ihD rest hsz.2 h.2⟩
    · intro xs hn h
      cases xs with
      | nil => simp [attrItems, itemsUnique]
      | cons v rest =>
        simp only [attrItems, itemsUnique, Bool.and_eq_true] at h ⊢
        have hsz : sizeOf v < n ∧ sizeOf rest < n := by
          simp only [List.cons.sizeOf_spec] at hn
          omega
        exact ⟨ihV v hsz.1 h.1, ihL rest hsz.2 h.2⟩

/-- C6 (counterexample): on the collision dictionary
`{"@a": "x", "a": "y"}` the attribute-unwrap pass produces `a = "x"` —
the attribute-origin value, not the element-origin `"y"` the claim
predicts. -/
theorem claim_C6_counterexample :
    AttrToMember (.dict [("@a", .str "x"), ("a", .str "y")]) =
      .dict [("a", .str "x")] ∧
    pyEq (.str "x") (.str "y") = false :=
  ⟨rfl, rfl⟩

/-- C6 (amended): the attribute-unwrap pass recursively strips the `@`
marker, and whenever the stripped key collides with an existing
element-origin key, the attribute-origin value wins — the rename
assignment `xmldict[key[1:]] = xmldict.pop(key)` overwrites the
element-origin entry — and the mapping's keys stay unique at every depth
after the pass. -/
theorem claim_C6 :
    (∀ kvs (a : String) (x y : PyVal), (dKeys kvs).Nodup →
      atMarked a = false →
      dLookup kvs (atStr a) = some x →
      dLookup kvs (atStr (atStr a)) = Option.none →
      dLookup kvs a = some y →
      pyLookup (AttrToMember (.dict kvs)) a = some (AttrToMember x)) ∧
    (∀ v, keysUnique v = true → keysUnique (AttrToMember v) = true) := by
  constructor
  · intro kvs a x y hnd ha hx hno2 hy
    simp only [AttrToMember, pyLookup]
    apply loop_hits (dKeys kvs) (attrEntries kvs) a (AttrToMember x) hnd ha
    · exact dLookup_some_mem kvs (atStr a) x hx
    · exact dLookup_none_not_mem kvs (atStr (atStr a)) hno2
    · rw [attrEntries_lookup, hx]
      rfl
  · intro v h
    exact (keysUnique_attr_aux (sizeOf v + 1)).1 v (Nat.lt_succ_self _) h

/-- Witness for C6: the collision dictionary `{"@a": "x", "a": "y"}` —
the unwrapped record holds the attribute-origin value under `a`, and its
keys are unique. -/
theorem claim_C6_witness :
    pyLookup (AttrToMember (.dict [("@a", .str "x"), ("a", .str "y")]))
      "a" = some (AttrToMember (.str "x")) ∧
    keysUnique (AttrToMember (.dict [("@b", .str "x"), ("b", .str "y"),
      ("c", .dict [("@d", .int 1)])])) = true :=
  ⟨claim_C6.1 [("@a", .str "x"), ("a", .str "y")] "a" (.str "x")
      (.str "y") (by decide) rfl rfl rfl rfl,
   claim_C6.2 (.dict [("@b", .str "x"), ("b", .str "y"),
      ("c", .dict [("@d", .int 1)])]) rfl⟩
